import Mathlib

/-!
# Verification of the CyberNinja_CanAI transport / codec / diagnostic core

Shallow embedding of the Python sources:

* `src/backend/multi_interface.py` — SLCAN / MCP2515 / LIN protocol codecs,
* `src/backend/can_interface.py`   — serial transport, CSV frame parser,
  reconnect backoff, send guard,
* `src/gui/tabs/key_tools_tab.py`  — diagnostic session / tester-present
  keep-alive state machine,
* `src/gui/tabs/diagnostics_tab.py` — DTC decoding,
* `src/utils/uds_decoder.py`       — DID payload decoding.

Python strings are embedded as `List Char`; Python `int` values that are
always non-negative in the source are embedded as `Nat`.  The Python bit
operations `~x & 1` and `~x & 0xFF` (one's complement of a non-negative
int, masked) are embedded by the explicit arithmetic equivalents
`1 - x % 2` and `255 - x % 256`.  Wall-clock timestamps
(`datetime.now().strftime(...)`) are nondeterministic inputs; each parse
function therefore takes the timestamp text as an explicit `now` argument.
-/

namespace CyberNinja

/-! ## Python string primitives -/

/-- ASCII whitespace as stripped by Python `str.strip()` / split by
`str.split()` (space, tab, newline, carriage return, vertical tab,
form feed; the wire formats here never contain non-ASCII whitespace). -/
def pyIsSpace (c : Char) : Bool :=
  c == ' ' || c == '\t' || c == '\n' || c == '\r' || c == '\x0b' || c == '\x0c'

/-- Python `str.strip()`: drop leading and trailing whitespace. -/
def pyStrip (l : List Char) : List Char :=
  ((l.dropWhile pyIsSpace).reverse.dropWhile pyIsSpace).reverse

/-- Python `str.upper()` on the ASCII range. -/
def pyUpper (l : List Char) : List Char := l.map Char.toUpper

/-- A string with no whitespace characters (so `pyStrip` fixes it). -/
def noWs (l : List Char) : Prop := ∀ c ∈ l, pyIsSpace c = false

/-- Value of one hexadecimal digit, as accepted by Python `int(_, 16)`:
`'0'..'9'` (codes 48–57), `'A'..'F'` (65–70), `'a'..'f'` (97–102). -/
def hexVal? (c : Char) : Option Nat :=
  if 48 ≤ c.toNat ∧ c.toNat ≤ 57 then some (c.toNat - 48)
  else if 65 ≤ c.toNat ∧ c.toNat ≤ 70 then some (c.toNat - 55)
  else if 97 ≤ c.toNat ∧ c.toNat ≤ 102 then some (c.toNat - 87)
  else none

def isHexCh (c : Char) : Bool := (hexVal? c).isSome

/-- ASCII decimal digit `'0'..'9'` (regex `\d` on the ASCII wire data). -/
def isDigitCh (c : Char) : Bool := 48 ≤ c.toNat && c.toNat ≤ 57

/-- Upper-case hexadecimal digit character for `n < 16`
(as produced by Python `"%X"` formatting). -/
def natToHexCh (n : Nat) : Char :=
  if n < 10 then Char.ofNat (48 + n) else Char.ofNat (55 + n)

/-- Fuel-driven accumulator for the upper-case hex representation;
`fuel ≥ 1 + log16 n` suffices, callers pass `n + 1`. -/
def hexDigitsCore : Nat → Nat → List Char → List Char
  | 0, _, acc => acc
  | fuel + 1, n, acc =>
    if n < 16 then natToHexCh n :: acc
    else hexDigitsCore fuel (n / 16) (natToHexCh (n % 16) :: acc)

/-- Python `f"{n:X}"`: minimal upper-case hex representation (`"0"` for 0). -/
def hexRepr (n : Nat) : List Char := hexDigitsCore (n + 1) n []

/-- Python `f"{n:0wX}"`: upper-case hex, zero-padded on the left to width
`w` (longer if the minimal representation needs more digits). -/
def fmtHexPad (n w : Nat) : List Char :=
  let ds := hexRepr n
  List.replicate (w - ds.length) '0' ++ ds

/-- Python `f"{b:02X}"`. -/
def fmtByte (b : Nat) : List Char := fmtHexPad b 2

/-- Fuel-driven accumulator for the decimal representation. -/
def decDigitsCore : Nat → Nat → List Char → List Char
  | 0, _, acc => acc
  | fuel + 1, n, acc =>
    if n < 10 then Char.ofNat (48 + n) :: acc
    else decDigitsCore fuel (n / 10) (Char.ofNat (48 + n % 10) :: acc)

/-- Python `str(n)` / `f"{n}"` for a non-negative int. -/
def decRepr (n : Nat) : List Char := decDigitsCore (n + 1) n []

/-- Left-to-right hex accumulation, `acc * 16 + digit` per character;
`none` on the first non-hex character. -/
def parseAcc (a : Nat) : List Char → Option Nat
  | [] => some a
  | c :: rest =>
    match hexVal? c with
    | none => none
    | some v => parseAcc (a * 16 + v) rest

/-- Python `int(s, 16)` on the pure-hex-digit strings that occur on this
wire (Python additionally tolerates surrounding whitespace, a sign and
underscores; no line reaching `int(_, 16)` in the claims' paths uses
those). Empty string fails. -/
def parseHexStrict? (cs : List Char) : Option Nat :=
  if cs = [] then none else parseAcc 0 cs

/-- Python `[int(s[i:i+2], 16) for i in range(0, len(s), 2)]`: hex pairs,
with a trailing single digit parsed as its own (one-digit) byte, failing
if any chunk fails. -/
def parseHexPairs? : List Char → Option (List Nat)
  | [] => some []
  | c1 :: c2 :: rest =>
    match parseHexStrict? [c1, c2], parseHexPairs? rest with
    | some b, some bs => some (b :: bs)
    | _, _ => none
  | [c] =>
    match parseHexStrict? [c] with
    | some b => some [b]
    | none => none

/-- Tokenizer behind Python `str.split()` (split on whitespace runs,
no empty tokens); `cur` is the token being accumulated. -/
def splitWsAux : List Char → List Char → List (List Char)
  | [], cur => if cur = [] then [] else [cur]
  | c :: rest, cur =>
    if pyIsSpace c then
      if cur = [] then splitWsAux rest [] else cur :: splitWsAux rest []
    else splitWsAux rest (cur ++ [c])

/-- Python `str.split()` with no argument. -/
def pySplitWs (l : List Char) : List (List Char) := splitWsAux l []

/-- Python `str.split(",", k)`: split at the first `k` commas, keeping the
remainder (commas included) as the final part. -/
def splitCommaMax : Nat → List Char → List (List Char)
  | 0, l => [l]
  | k + 1, l =>
    let pre := l.takeWhile (fun c => !(c == ','))
    let rest := l.dropWhile (fun c => !(c == ','))
    match rest with
    | [] => [l]
    | _ :: tail => pre :: splitCommaMax k tail

/-! ## backend/multi_interface.py : data structures -/

namespace MultiInterface

inductive BusType where
  | CAN
  | CAN_FD
  | LIN
deriving DecidableEq

inductive Direction where
  | RX
  | TX
deriving DecidableEq

/-- `multi_interface.CANFrame` (dataclass). -/
structure CANFrame where
  timestamp : List Char
  can_id : List Char
  data : List Nat
  direction : Direction
  bus_type : BusType := BusType.CAN
  channel : Nat := 0
deriving DecidableEq

/-- `multi_interface.LINFrame` (dataclass). -/
structure LINFrame where
  timestamp : List Char
  pid : Nat
  data : List Nat
  direction : Direction
  checksum : Nat := 0
deriving DecidableEq

/-! ### SLCANProtocol -/

/-- `SLCANProtocol.build_frame`: `t{id:03X}{dlc}{data}\r` for standard
frames, `T{id:08X}{dlc}{data}\r` for extended frames (`{dlc}` is the
decimal `len(data)`, data bytes as `{b:02X}`). -/
def SLCANProtocol.build_frame (can_id : Nat) (data : List Nat)
    (extended : Bool := false) : List Char :=
  let dlc := data.length
  let data_hex := (data.map fmtByte).flatten
  if extended then
    'T' :: fmtHexPad can_id 8 ++ decRepr dlc ++ data_hex ++ ['\r']
  else
    't' :: fmtHexPad can_id 3 ++ decRepr dlc ++ data_hex ++ ['\r']

/-- `SLCANProtocol.parse_frame`.  Mirrors the Python slicing exactly:
`line[1:4]` is the id text, `int(line[4], 16)` the length digit,
`line[5:5+dlc*2]` the data span (Python slices clamp at the end of the
string, so a truncated line yields a short span, not an error), and the
data span is chunked into 1–2 character `int(_, 16)` bytes.  Any failed
`int` conversion is caught and turned into `None`. -/
def SLCANProtocol.parse_frame (now : List Char) (line0 : List Char) :
    Option CANFrame :=
  let line := pyStrip line0
  if line = [] then none
  else if line.headD ' ' = 't' ∧ 5 ≤ line.length then
    match hexVal? ((line.drop 4).headD ' ') with
    | none => none
    | some dlc =>
      match parseHexPairs? ((line.drop 5).take (dlc * 2)) with
      | none => none
      | some data =>
        some { timestamp := now, can_id := (line.drop 1).take 3,
               data := data, direction := Direction.RX }
  else if line.headD ' ' = 'T' ∧ 10 ≤ line.length then
    match hexVal? ((line.drop 9).headD ' ') with
    | none => none
    | some dlc =>
      match parseHexPairs? ((line.drop 10).take (dlc * 2)) with
      | none => none
      | some data =>
        some { timestamp := now, can_id := (line.drop 1).take 8,
               data := data, direction := Direction.RX }
  else none

/-! ### MCP2515Protocol -/

/-- Consume an exact literal prefix, returning the remainder. -/
def matchLiteral : List Char → List Char → Option (List Char)
  | [], l => some l
  | _ :: _, [] => none
  | c :: lit, c' :: l => if c = c' then matchLiteral lit l else none

/-- One-or-more run of characters in a class (a regex `[...]+` group whose
closing class excludes the following literal, so greedy maximal munch is
exact), returning the group and the remainder. -/
def takeClass1 (p : Char → Bool) (l : List Char) :
    Option (List Char × List Char) :=
  let t := l.takeWhile p
  if t = [] then none else some (t, l.dropWhile p)

/-- Character class `[\dA-Fa-f,\s]` of the `DATA:` group. -/
def isClass3 (c : Char) : Bool := isHexCh c || c == ',' || pyIsSpace c

/-- Character class `[\dA-Fa-f.]` of the candump-style data group. -/
def isClass2 (c : Char) : Bool := isHexCh c || c == '.'

/-- `re.match(r'ID:([0-9A-Fa-f]+),LEN:(\d+),DATA:([\dA-Fa-f,\s]+)', line)`:
returns the id group and the data group on success (the `LEN:` group is
captured but unused by the Python code). -/
def mcpFormat1 (l : List Char) : Option (List Char × List Char) :=
  match matchLiteral ['I', 'D', ':'] l with
  | none => none
  | some l =>
    match takeClass1 isHexCh l with
    | none => none
    | some (g1, l) =>
      match matchLiteral [',', 'L', 'E', 'N', ':'] l with
      | none => none
      | some l =>
        match takeClass1 isDigitCh l with
        | none => none
        | some (_, l) =>
          match matchLiteral [',', 'D', 'A', 'T', 'A', ':'] l with
          | none => none
          | some l =>
            match takeClass1 isClass3 l with
            | none => none
            | some (g3, _) => some (g1, g3)

/-- `re.match(r'([0-9A-Fa-f]+)#([\dA-Fa-f.]+)', line)`. -/
def mcpFormat2 (l : List Char) : Option (List Char × List Char) :=
  match takeClass1 isHexCh l with
  | none => none
  | some (g1, l) =>
    match matchLiteral ['#'] l with
    | none => none
    | some l =>
      match takeClass1 isClass2 l with
      | none => none
      | some (g2, _) => some (g1, g2)

/-- Python `int(s)` (decimal) on a whitespace-free token. -/
def parseDecStrict? (cs : List Char) : Option Nat :=
  if cs = [] then none
  else if cs.all isDigitCh then
    some (cs.foldl (fun a c => a * 10 + (c.toNat - 48)) 0)
  else none

/-- Format 3 of `MCP2515Protocol.parse_frame` (`ID DLC D0 D1 ...` or
`ID D0 D1 ...`), applied to the whitespace-split tokens; all conversion
failures are caught by the Python `except` and yield `None`. -/
def mcpFormat3 (now : List Char) (parts : List (List Char)) :
    Option CANFrame :=
  match parts with
  | p0 :: p1 :: rest =>
    let can_id := pyUpper p0
    if p1.length = 1 then
      match parseDecStrict? p1 with
      | none => none
      | some dlc =>
        match (rest.take dlc).mapM parseHexStrict? with
        | none => none
        | some data =>
          some { timestamp := now, can_id := can_id, data := data,
                 direction := Direction.RX }
    else
      match ((p1 :: rest).mapM parseHexStrict?) with
      | none => none
      | some data =>
        some { timestamp := now, can_id := can_id, data := data,
               direction := Direction.RX }
  | _ => none

/-- `MCP2515Protocol.parse_frame`: the three accepted input shapes, tried
in order.  (In formats 1 and 2 a data group whose chunks fail `int(_, 16)`
would raise an uncaught `ValueError` in Python; that path is embedded as
`none` here and is not reachable from any claim's inputs, which are either
well-formed or rejected before the conversion.) -/
def MCP2515Protocol.parse_frame (now : List Char) (line0 : List Char) :
    Option CANFrame :=
  let line := pyStrip line0
  if line = [] then none
  else
    match mcpFormat1 line with
    | some (g1, g3) =>
      let data_str := (g3.filter (fun c => !(c == ' '))).filter
        (fun c => !(c == ','))
      match parseHexPairs? data_str with
      | some data =>
        some { timestamp := now, can_id := pyUpper g1, data := data,
               direction := Direction.RX }
      | none => none
    | none =>
      match mcpFormat2 line with
      | some (g1, g2) =>
        let data_str := g2.filter (fun c => !(c == '.'))
        match parseHexPairs? data_str with
        | some data =>
          some { timestamp := now, can_id := pyUpper g1, data := data,
                 direction := Direction.RX }
        | none => none
      | none =>
        let parts := pySplitWs line
        if 3 ≤ parts.length then mcpFormat3 now parts else none

/-- Python `','.join(strings)`. -/
def commaJoin : List (List Char) → List Char
  | [] => []
  | [x] => x
  | x :: xs => x ++ [','] ++ commaJoin xs

/-- `MCP2515Protocol.build_frame`: `SEND:{id:03X},{len(data)},{data}\r\n`
with the data bytes comma-joined as `{b:02X}`. -/
def MCP2515Protocol.build_frame (can_id : Nat) (data : List Nat) :
    List Char :=
  ['S', 'E', 'N', 'D', ':'] ++ fmtHexPad can_id 3 ++ [','] ++
    decRepr data.length ++ [','] ++
    commaJoin (data.map fmtByte) ++ ['\r', '\n']

/-! ### LINProtocol -/

/-- Python `~x & 1` for a non-negative int `x`. -/
def pyNotAnd1 (x : Nat) : Nat := 1 - x % 2

/-- Python `~x & 0xFF` for a non-negative int `x`. -/
def pyNotByte (x : Nat) : Nat := 255 - x % 256

/-- `LINProtocol.calculate_pid`: protected id from a 6-bit frame id. -/
def LINProtocol.calculate_pid (frame_id : Nat) : Nat :=
  let id_bits := frame_id &&& 0x3F
  let p0 := (id_bits ^^^ (id_bits >>> 1) ^^^ (id_bits >>> 2) ^^^
    (id_bits >>> 4)) &&& 1
  let p1 := pyNotAnd1 ((id_bits >>> 1) ^^^ (id_bits >>> 3) ^^^
    (id_bits >>> 4) ^^^ (id_bits >>> 5))
  id_bits ||| (p0 <<< 6) ||| (p1 <<< 7)

/-- `LINProtocol.calculate_checksum`: accumulator starts at `pid`
(enhanced) or `0` (classic); each data byte is added, subtracting 255
whenever the running sum exceeds 255; result is `~checksum & 0xFF`. -/
def LINProtocol.calculate_checksum (pid : Nat) (data : List Nat)
    (enhanced : Bool := true) : Nat :=
  let checksum := if enhanced then pid else 0
  let checksum := data.foldl
    (fun checksum byte =>
      let checksum := checksum + byte
      if 255 < checksum then checksum - 255 else checksum)
    checksum
  pyNotByte checksum

/-- The spec's accumulation rule in isolation: start at `start`, add each
byte, subtracting 255 whenever the running sum exceeds 255. -/
def lin_accumulate (start : Nat) (bytes : List Nat) : Nat :=
  bytes.foldl
    (fun c b =>
      let c := c + b
      if 255 < c then c - 255 else c)
    start

/-- The spec's protected-id parity formula, stated from the spec text
(section 4.1) for comparison with `LINProtocol.calculate_pid`:
`p0 = v⊕(v>>1)⊕(v>>2)⊕(v>>4) & 1`,
`p1 = ¬(v>>1 ⊕ v>>3 ⊕ v>>4 ⊕ v>>5) & 1`,
protected id `= v | (p0<<6) | (p1<<7)`. -/
def spec_protected_id (v : Nat) : Nat :=
  let p0 := (v ^^^ (v >>> 1) ^^^ (v >>> 2) ^^^ (v >>> 4)) &&& 1
  let p1 := pyNotAnd1 ((v >>> 1) ^^^ (v >>> 3) ^^^ (v >>> 4) ^^^ (v >>> 5))
  v ||| (p0 <<< 6) ||| (p1 <<< 7)

end MultiInterface

/-! ## backend/can_interface.py -/

namespace CanInterface

inductive Direction where
  | RX
  | TX
deriving DecidableEq

/-- `can_interface.CANFrame` (dataclass). -/
structure CANFrame where
  timestamp : List Char
  can_id : List Char
  data : List Nat
  direction : Direction
deriving DecidableEq

/-- `Direction(direction_str)`: enum lookup by value; a `ValueError` for
any other string is caught by the surrounding `except`. -/
def directionOf? (s : List Char) : Option Direction :=
  if s = ['R', 'X'] then some Direction.RX
  else if s = ['T', 'X'] then some Direction.TX
  else none

/-- The default CSV frame decoder of `CANInterface` (the private method
taking one line of serial input): CSV line
`timestamp,id,data_hex,direction` (split at the first 3 commas, requiring
exactly 4 parts), id constrained to `0..0x7FF` after upper/strip, data hex
of even length at most `2 * max_data_bytes`, direction one of `RX`/`TX`.
All conversion errors are caught and yield `None`. -/
def default_frame_parse (max_data_bytes : Nat) (line : List Char) :
    Option CANFrame :=
  match splitCommaMax 3 line with
  | [timestamp, can_id0, data_hex, direction_str] =>
    let can_id := pyUpper (pyStrip can_id0)
    match parseHexStrict? can_id with
    | none => none
    | some can_id_int =>
      if can_id_int ≤ 0x7FF then
        if data_hex.length % 2 = 0 ∧ data_hex.length ≤ max_data_bytes * 2 then
          match parseHexPairs? data_hex with
          | none => none
          | some data =>
            match directionOf? direction_str with
            | none => none
            | some direction =>
              some { timestamp := timestamp, can_id := can_id,
                     data := data, direction := direction }
        else none
      else none
  | _ => none

/-- The decision logic of `CANInterface.send_frame` (checks in source
order: running flag, payload length against `max_data_bytes`, simulation
echo, serial-port availability, then the actual write, whose success is
the environment input `write_ok`).  Returns the method's boolean result. -/
def send_frame (running : Bool) (max_data_bytes : Nat) (simulate : Bool)
    (serial_open : Bool) (write_ok : Bool) (frame : CANFrame) : Bool :=
  if !running then false
  else if max_data_bytes < frame.data.length then false
  else if simulate then true
  else if !serial_open then false
  else write_ok

/-- The backoff delay computed by `CANInterface._attempt_reconnect`:
`delay = min(2 ** attempt, 10)` seconds. -/
def attempt_reconnect_delay (attempt : Nat) : Nat := min (2 ^ attempt) 10

/-- The `attempt` counter update of one successful pass through the `try`
block of `CANInterface._serial_read_loop`: the line read is decoded and
stripped, and `attempt = 0` exactly when the stripped line is non-empty
(`if line: ... attempt = 0`). -/
def serial_read_attempt_update (attempt : Nat) (line : List Char) : Nat :=
  if pyStrip line = [] then attempt else 0

end CanInterface

/-! ## gui/tabs/key_tools_tab.py : session / keep-alive state machine -/

namespace KeyTools

/-- The mutable state touched by the session-control and tester-present
logic of `KeyToolsTab`: `self.session_active` and whether
`self.tester_present_timer` is running. -/
structure KeyToolsState where
  session_active : Bool
  tester_timer_running : Bool
deriving DecidableEq

/-- Initial state from `KeyToolsTab.__init__`: `session_active = False`,
timer created but not started. -/
def initState : KeyToolsState :=
  { session_active := false, tester_timer_running := false }

/-- Events relevant to the keep-alive behaviour: a positive
session-control response (dispatched to `_handle_session_response`), a
connection-state change (dispatched to `_update_connection_status`), and
a tick of `tester_present_timer` (which calls `_send_tester_present` when
the timer is running). -/
inductive KeyToolsEvent where
  | sessionResponse
  | connectionChanged (connected : Bool)
  | timerTick
deriving DecidableEq

/-- One event step.  The boolean output records whether this event caused
a tester-present request to be sent.
* `_handle_session_response` sets `session_active = True` and starts the
  timer; no other handler writes `session_active` or stops the timer.
* `_update_connection_status` only repaints the connection indicator.
* a timer tick runs `_send_tester_present`, which sends
  `[TESTER_PRESENT, 0x00]` iff `self.session_active`. -/
def step (s : KeyToolsState) (e : KeyToolsEvent) : KeyToolsState × Bool :=
  match e with
  | KeyToolsEvent.sessionResponse =>
    ({ session_active := true, tester_timer_running := true }, false)
  | KeyToolsEvent.connectionChanged _ => (s, false)
  | KeyToolsEvent.timerTick =>
    (s, s.tester_timer_running && s.session_active)

/-- Run a list of events, collecting per-event tester-present outputs. -/
def run (s : KeyToolsState) : List KeyToolsEvent →
    KeyToolsState × List Bool
  | [] => (s, [])
  | e :: es =>
    let (s', sent) := step s e
    let (s'', sents) := run s' es
    (s'', sent :: sents)

end KeyTools

/-! ## gui/tabs/diagnostics_tab.py : DTC decoding -/

namespace Diagnostics

/-- `DiagnosticsTab._decode_dtc`: `{0:'P',1:'C',2:'B',3:'U'}.get((hi>>6)&3,'P')`
followed by `f"{((hi & 0x3F) << 8) | lo:04X}"`. -/
def decode_dtc (hi lo : Nat) : List Char :=
  let t := (hi >>> 6) &&& 0x03
  let dtc_type :=
    if t = 0 then 'P' else if t = 1 then 'C'
    else if t = 2 then 'B' else if t = 3 then 'U' else 'P'
  let num := ((hi &&& 0x3F) <<< 8) ||| lo
  dtc_type :: fmtHexPad num 4

/-- The claim's type-selection table `{P, C, B, U}` indexed by
`(hi >> 6) & 0x03`. -/
def dtc_type_char (t : Nat) : Char :=
  if t = 0 then 'P' else if t = 1 then 'C' else if t = 2 then 'B' else 'U'

/-- Upper-case hexadecimal digit character. -/
def isUpperHexDigit (c : Char) : Bool :=
  ('0' ≤ c && c ≤ '9') || ('A' ≤ c && c ≤ 'F')

end Diagnostics

/-! ## utils/uds_decoder.py -/

namespace UdsDecoder

/-- `uds_decoder.decode_uint`: short input yields
`f"Invalid ({len(data)} bytes)"`; otherwise the first `byte_count` bytes
are folded big-endian (`value = (value << 8) | b`) and rendered in
decimal. -/
def decode_uint (data : List Nat) (byte_count : Nat := 4) : List Char :=
  if data.length < byte_count then
    ['I', 'n', 'v', 'a', 'l', 'i', 'd', ' ', '('] ++
      decRepr data.length ++ [' ', 'b', 'y', 't', 'e', 's', ')']
  else
    decRepr ((data.take byte_count).foldl (fun v b => (v <<< 8) ||| b) 0)

/-- The big-endian unsigned integer of a byte list, in the claim's
mathematical form. -/
def beValue (bytes : List Nat) : Nat :=
  bytes.foldl (fun v b => v * 256 + b) 0

end UdsDecoder

/-! ## Helper lemmas: hex formatting and parsing -/

theorem hexVal?_lt_16 {c : Char} {v : Nat} (h : hexVal? c = some v) :
    v < 16 := by
  unfold hexVal? at h
  split at h
  · simp only [Option.some.injEq] at h
    omega
  · split at h
    · simp only [Option.some.injEq] at h
      omega
    · split at h
      · simp only [Option.some.injEq] at h
        omega
      · exact absurd h (by simp)

theorem hexVal?_natToHexCh : ∀ k < 16, hexVal? (natToHexCh k) = some k := by
  decide

theorem noWs_natToHexCh : ∀ k < 16, pyIsSpace (natToHexCh k) = false := by
  decide

theorem hexVal?_digitCh : ∀ k < 10, hexVal? (Char.ofNat (48 + k)) = some k := by
  decide

theorem noWs_digitCh : ∀ k < 10, pyIsSpace (Char.ofNat (48 + k)) = false := by
  decide

theorem hexDigitsCore_acc (fuel : Nat) :
    ∀ n acc, hexDigitsCore fuel n acc = hexDigitsCore fuel n [] ++ acc := by
  induction fuel with
  | zero => intro n acc; simp [hexDigitsCore]
  | succ fuel ih =>
    intro n acc
    by_cases h : n < 16
    · simp [hexDigitsCore, h]
    · simp only [hexDigitsCore, if_neg h]
      rw [ih (n / 16) (natToHexCh (n % 16) :: acc),
        ih (n / 16) [natToHexCh (n % 16)], List.append_assoc]
      rfl

theorem mem_hexDigitsCore {c : Char} :
    ∀ fuel n, c ∈ hexDigitsCore fuel n [] → ∃ k, k < 16 ∧ c = natToHexCh k := by
  intro fuel
  induction fuel with
  | zero => intro n h; simp [hexDigitsCore] at h
  | succ fuel ih =>
    intro n h
    by_cases hn : n < 16
    · simp only [hexDigitsCore, if_pos hn, List.mem_singleton] at h
      exact ⟨n, hn, h⟩
    · simp only [hexDigitsCore, if_neg hn] at h
      rw [hexDigitsCore_acc, List.mem_append, List.mem_singleton] at h
      rcases h with h | h
      · exact ih (n / 16) h
      · exact ⟨n % 16, by omega, h⟩

theorem hexDigitsCore_ne_nil (fuel n : Nat) (h : 0 < fuel) :
    hexDigitsCore fuel n [] ≠ [] := by
  cases fuel with
  | zero => omega
  | succ fuel =>
    by_cases hn : n < 16
    · simp [hexDigitsCore, hn]
    · simp only [hexDigitsCore, if_neg hn]
      rw [hexDigitsCore_acc]
      simp

theorem hexDigitsCore_length_le :
    ∀ fuel n w, 0 < w → n < 16 ^ w →
      (hexDigitsCore fuel n []).length ≤ w := by
  intro fuel
  induction fuel with
  | zero => intro n w _ _; simp [hexDigitsCore]
  | succ fuel ih =>
    intro n w hw hn
    by_cases h : n < 16
    · cases w with
      | zero => omega
      | succ w => simp [hexDigitsCore, h]
    · simp only [hexDigitsCore, if_neg h]
      rw [hexDigitsCore_acc, List.length_append, List.length_singleton]
      cases w with
      | zero => omega
      | succ w =>
        have hw' : 0 < w := by
          by_contra hc
          have : w = 0 := by omega
          subst this
          simp [pow_one] at hn
          omega
        have hn' : n / 16 < 16 ^ w := by
          rw [pow_succ] at hn
          exact Nat.div_lt_of_lt_mul (by omega)
        have := ih (n / 16) w hw' hn'
        omega

theorem parseAcc_append (a : Nat) (l1 l2 : List Char) :
    parseAcc a (l1 ++ l2) =
      match parseAcc a l1 with
      | some a' => parseAcc a' l2
      | none => none := by
  induction l1 generalizing a with
  | nil => simp [parseAcc]
  | cons c rest ih =>
    simp only [List.cons_append, parseAcc]
    cases hexVal? c with
    | none => rfl
    | some v => exact ih (a * 16 + v)

theorem parseAcc_hexDigitsCore :
    ∀ fuel n, n < fuel → ∀ a,
      parseAcc a (hexDigitsCore fuel n []) =
        some (a * 16 ^ (hexDigitsCore fuel n []).length + n) := by
  intro fuel
  induction fuel with
  | zero => omega
  | succ fuel ih =>
    intro n hn a
    by_cases h : n < 16
    · simp only [hexDigitsCore, if_pos h]
      simp [parseAcc, hexVal?_natToHexCh n h]
    · simp only [hexDigitsCore, if_neg h]
      rw [hexDigitsCore_acc]
      have hlt : n / 16 < fuel := by
        have : n / 16 < n := Nat.div_lt_self (by omega) (by omega)
        omega
      rw [parseAcc_append, ih (n / 16) hlt a]
      simp only [parseAcc, hexVal?_natToHexCh (n % 16) (Nat.mod_lt _ (by omega)),
        List.length_append, List.length_singleton]
      have : (a * 16 ^ (hexDigitsCore fuel (n / 16) []).length + n / 16) * 16 +
          n % 16 = a * 16 ^ ((hexDigitsCore fuel (n / 16) []).length + 1) + n := by
        rw [pow_succ]
        have := Nat.div_add_mod n 16
        ring_nf
        omega
      rw [this]

theorem parseAcc_zeros : ∀ k, parseAcc 0 (List.replicate k '0') = some 0 := by
  intro k
  induction k with
  | zero => rfl
  | succ k ih =>
    simp only [List.replicate_succ, parseAcc]
    have h0 : hexVal? '0' = some 0 := by decide
    rw [h0]
    simpa using ih

theorem fmtHexPad_length {n w : Nat} (hw : 0 < w) (hn : n < 16 ^ w) :
    (fmtHexPad n w).length = w := by
  unfold fmtHexPad hexRepr
  have hle := hexDigitsCore_length_le (n + 1) n w hw hn
  simp only [List.length_append, List.length_replicate]
  omega

theorem parseHexStrict?_fmtHexPad (n w : Nat) :
    parseHexStrict? (fmtHexPad n w) = some n := by
  unfold parseHexStrict? fmtHexPad hexRepr
  have hne : hexDigitsCore (n + 1) n [] ≠ [] :=
    hexDigitsCore_ne_nil (n + 1) n (by omega)
  rw [if_neg (by simp [hne])]
  rw [parseAcc_append, parseAcc_zeros]
  show parseAcc 0 (hexDigitsCore (n + 1) n []) = some n
  rw [parseAcc_hexDigitsCore (n + 1) n (by omega) 0]
  simp

theorem mem_fmtHexPad {c : Char} {n w : Nat} (h : c ∈ fmtHexPad n w) :
    c = '0' ∨ ∃ k, k < 16 ∧ c = natToHexCh k := by
  unfold fmtHexPad hexRepr at h
  rw [List.mem_append] at h
  rcases h with h | h
  · exact Or.inl (List.eq_of_mem_replicate h)
  · exact Or.inr (mem_hexDigitsCore (n + 1) n h)

theorem noWs_fmtHexPad (n w : Nat) : noWs (fmtHexPad n w) := by
  intro c hc
  rcases mem_fmtHexPad hc with h | ⟨k, hk, h⟩
  · subst h; decide
  · subst h; exact noWs_natToHexCh k hk

theorem mem_decDigitsCore {c : Char} :
    ∀ fuel n, c ∈ decDigitsCore fuel n [] →
      ∃ k, k < 10 ∧ c = Char.ofNat (48 + k) := by
  intro fuel
  induction fuel with
  | zero => intro n h; simp [decDigitsCore] at h
  | succ fuel ih =>
    intro n h
    by_cases hn : n < 10
    · simp only [decDigitsCore, if_pos hn, List.mem_singleton] at h
      exact ⟨n, hn, h⟩
    · simp only [decDigitsCore, if_neg hn] at h
      have hacc : ∀ fuel n acc, decDigitsCore fuel n acc =
          decDigitsCore fuel n [] ++ acc := by
        intro fuel
        induction fuel with
        | zero => intro n acc; simp [decDigitsCore]
        | succ fuel ihf =>
          intro n acc
          by_cases h10 : n < 10
          · simp [decDigitsCore, h10]
          · simp only [decDigitsCore, if_neg h10]
            rw [ihf (n / 10) (Char.ofNat (48 + n % 10) :: acc),
              ihf (n / 10) [Char.ofNat (48 + n % 10)], List.append_assoc]
            rfl
      rw [hacc, List.mem_append, List.mem_singleton] at h
      rcases h with h | h
      · exact ih (n / 10) h
      · exact ⟨n % 10, Nat.mod_lt _ (by omega), h⟩

theorem noWs_decRepr (n : Nat) : noWs (decRepr n) := by
  intro c hc
  rcases mem_decDigitsCore (n + 1) n hc with ⟨k, hk, h⟩
  subst h
  exact noWs_digitCh k hk

theorem decRepr_lt10 : ∀ n < 10, decRepr n = [Char.ofNat (48 + n)] := by
  decide

/-! ## Helper lemmas: stripping and splitting -/

theorem dropWhile_of_noWs {l : List Char} (h : noWs l) :
    l.dropWhile pyIsSpace = l := by
  cases l with
  | nil => rfl
  | cons c rest =>
    have := h c (List.mem_cons_self c rest)
    simp [List.dropWhile, this]

theorem noWs_append {l1 l2 : List Char} (h1 : noWs l1) (h2 : noWs l2) :
    noWs (l1 ++ l2) := by
  intro c hc
  rcases List.mem_append.mp hc with h | h
  · exact h1 c h
  · exact h2 c h

theorem noWs_reverse {l : List Char} (h : noWs l) : noWs l.reverse := by
  intro c hc
  exact h c (List.mem_reverse.mp hc)

theorem pyStrip_noWs {l : List Char} (h : noWs l) : pyStrip l = l := by
  unfold pyStrip
  rw [dropWhile_of_noWs h, dropWhile_of_noWs (noWs_reverse h), List.reverse_reverse]

theorem dropWhile_append_of_all {p : Char → Bool} {l1 l2 : List Char}
    (h : ∀ c ∈ l1, p c = true) :
    (l1 ++ l2).dropWhile p = l2.dropWhile p := by
  induction l1 with
  | nil => simp
  | cons c rest ih =>
    have hc := h c (List.mem_cons_self c rest)
    simp only [List.cons_append, List.dropWhile, hc]
    exact ih fun x hx => h x (List.mem_cons_of_mem c hx)

theorem pyStrip_noWs_append {body suf : List Char} (hb : noWs body)
    (hs : ∀ c ∈ suf, pyIsSpace c = true) :
    pyStrip (body ++ suf) = body := by
  unfold pyStrip
  cases body with
  | nil =>
    simp only [List.nil_append]
    have h1 : suf.dropWhile pyIsSpace = [] := by
      rw [List.dropWhile_eq_nil_iff]
      intro x hx
      simp [hs x hx]
    rw [h1]
    rfl
  | cons c rest =>
    have hc : pyIsSpace c = false := hb c (List.mem_cons_self c rest)
    rw [show ((c :: rest) ++ suf).dropWhile pyIsSpace = (c :: rest) ++ suf by
      simp [List.dropWhile, hc]]
    rw [show ((c :: rest) ++ suf).reverse = suf.reverse ++ (c :: rest).reverse by
      simp]
    rw [dropWhile_append_of_all (fun x hx => hs x (List.mem_reverse.mp hx))]
    rw [dropWhile_of_noWs (noWs_reverse hb)]
    exact List.reverse_reverse _

theorem splitWsAux_noWs {l : List Char} (h : noWs l) :
    ∀ cur, splitWsAux l cur = if cur ++ l = [] then [] else [cur ++ l] := by
  induction l with
  | nil =>
    intro cur
    simp [splitWsAux]
  | cons c rest ih =>
    intro cur
    have hc : pyIsSpace c = false := h c (List.mem_cons_self c rest)
    have hrest : noWs rest := fun x hx => h x (List.mem_cons_of_mem c hx)
    simp only [splitWsAux, hc, Bool.false_eq_true, if_false]
    rw [ih hrest (cur ++ [c])]
    simp

theorem pySplitWs_noWs {l : List Char} (h : noWs l) (hne : l ≠ []) :
    pySplitWs l = [l] := by
  unfold pySplitWs
  rw [splitWsAux_noWs h []]
  simp [hne]

/-! ## Helper lemmas: hex pairs -/

theorem parseHexStrict?_fmtByte (b : Nat) :
    parseHexStrict? (fmtByte b) = some b :=
  parseHexStrict?_fmtHexPad b 2

theorem fmtByte_two {b : Nat} (hb : b < 256) :
    ∃ c1 c2, fmtByte b = [c1, c2] := by
  have h2 : (fmtByte b).length = 2 :=
    fmtHexPad_length (by omega) (by norm_num; omega)
  exact List.length_eq_two.mp h2

theorem parseHexPairs?_flatten {data : List Nat}
    (h : ∀ b ∈ data, b < 256) :
    parseHexPairs? ((data.map fmtByte).flatten) = some data := by
  induction data with
  | nil => rfl
  | cons b bs ih =>
    have hb : b < 256 := h b (List.mem_cons_self b bs)
    have hbs : ∀ x ∈ bs, x < 256 := fun x hx => h x (List.mem_cons_of_mem b hx)
    obtain ⟨c1, c2, hc⟩ := fmtByte_two hb
    simp only [List.map_cons, List.flatten_cons, hc, List.cons_append,
      List.nil_append, parseHexPairs?]
    rw [show [c1, c2] = fmtByte b from hc.symm, parseHexStrict?_fmtByte b,
      ih hbs]

theorem flatten_fmtByte_length {data : List Nat}
    (h : ∀ b ∈ data, b < 256) :
    ((data.map fmtByte).flatten).length = 2 * data.length := by
  induction data with
  | nil => rfl
  | cons b bs ih =>
    have hb : b < 256 := h b (List.mem_cons_self b bs)
    have hbs : ∀ x ∈ bs, x < 256 := fun x hx => h x (List.mem_cons_of_mem b hx)
    obtain ⟨c1, c2, hc⟩ := fmtByte_two hb
    simp only [List.map_cons, List.flatten_cons, List.length_append, hc,
      List.length_cons, List.length_nil, List.length_cons, ih hbs]
    omega

theorem noWs_fmtByte (b : Nat) : noWs (fmtByte b) := noWs_fmtHexPad b 2

theorem noWs_flatten_fmtByte (data : List Nat) :
    noWs ((data.map fmtByte).flatten) := by
  intro c hc
  rw [List.mem_flatten] at hc
  obtain ⟨l, hl, hcl⟩ := hc
  rw [List.mem_map] at hl
  obtain ⟨b, _, hb⟩ := hl
  exact noWs_fmtByte b c (hb ▸ hcl)

theorem parseHexPairs?_length :
    ∀ cs ds, parseHexPairs? cs = some ds → 2 * ds.length ≤ cs.length + 1
  | [], ds, h => by
    simp only [parseHexPairs?, Option.some.injEq] at h
    subst h
    simp
  | [c], ds, h => by
    simp only [parseHexPairs?] at h
    split at h
    · rename_i b hb
      simp only [Option.some.injEq] at h
      subst h
      simp
    · exact absurd h (by simp)
  | c1 :: c2 :: rest, ds, h => by
    simp only [parseHexPairs?] at h
    split at h
    · rename_i b bs hb hbs
      simp only [Option.some.injEq] at h
      subst h
      have := parseHexPairs?_length rest bs hbs
      simp only [List.length_cons]
      omega
    · exact absurd h (by simp)

/-! ## Helper lemmas: bit arithmetic -/

theorem shiftLeft_lor_eq_add {b k : Nat} (v : Nat) (hb : b < 2 ^ k) :
    (v <<< k) ||| b = v * 2 ^ k + b := by
  rw [Nat.shiftLeft_eq, Nat.mul_comm, ← Nat.mul_add_lt_is_or hb v]

/-! ## Helper lemmas: SLCAN round-trip -/

namespace MultiInterface

theorem slcan_parse_build_std (now : List Char) {can_id : Nat}
    {data : List Nat} (hid : can_id < 0x800) (hlen : data.length ≤ 8)
    (hdata : ∀ b ∈ data, b < 256) :
    SLCANProtocol.parse_frame now (SLCANProtocol.build_frame can_id data false) =
      some { timestamp := now, can_id := fmtHexPad can_id 3, data := data,
             direction := Direction.RX } := by
  have hF3 : (fmtHexPad can_id 3).length = 3 :=
    fmtHexPad_length (by omega) (by norm_num; omega)
  have hHlen : ((data.map fmtByte).flatten).length = 2 * data.length :=
    flatten_fmtByte_length hdata
  have hD : decRepr data.length = [Char.ofNat (48 + data.length)] :=
    decRepr_lt10 data.length (by omega)
  have hbody : noWs ('t' :: (fmtHexPad can_id 3 ++
      [Char.ofNat (48 + data.length)] ++ (data.map fmtByte).flatten)) := by
    intro c hc
    rcases List.mem_cons.mp hc with h | h
    · subst h; decide
    · rcases List.mem_append.mp h with h | h
      · rcases List.mem_append.mp h with h | h
        · exact noWs_fmtHexPad can_id 3 c h
        · rw [List.mem_singleton] at h
          subst h
          exact noWs_digitCh data.length (by omega)
      · exact noWs_flatten_fmtByte data c h
  have hstrip : pyStrip (SLCANProtocol.build_frame can_id data false) =
      't' :: (fmtHexPad can_id 3 ++ [Char.ofNat (48 + data.length)] ++
        (data.map fmtByte).flatten) := by
    have hb_eq : SLCANProtocol.build_frame can_id data false =
        ('t' :: (fmtHexPad can_id 3 ++ [Char.ofNat (48 + data.length)] ++
          (data.map fmtByte).flatten)) ++ ['\r'] := by
      simp [SLCANProtocol.build_frame, hD, List.append_assoc]
    rw [hb_eq]
    exact pyStrip_noWs_append hbody (by intro c hc; simp at hc; subst hc; decide)
  have hcond : ('t' :: (fmtHexPad can_id 3 ++ [Char.ofNat (48 + data.length)] ++
      (data.map fmtByte).flatten)).headD ' ' = 't' ∧ 5 ≤
      ('t' :: (fmtHexPad can_id 3 ++ [Char.ofNat (48 + data.length)] ++
        (data.map fmtByte).flatten)).length := by
    constructor
    · rfl
    · simp only [List.length_cons, List.length_append, hF3, hHlen,
        List.length_singleton]
      omega
  have h4 : hexVal? ((('t' :: (fmtHexPad can_id 3 ++
      [Char.ofNat (48 + data.length)] ++
      (data.map fmtByte).flatten)).drop 4).headD ' ') = some data.length := by
    rw [List.drop_succ_cons, List.append_assoc, List.drop_left' hF3]
    exact hexVal?_digitCh data.length (by omega)
  have h5 : parseHexPairs? ((('t' :: (fmtHexPad can_id 3 ++
      [Char.ofNat (48 + data.length)] ++
      (data.map fmtByte).flatten)).drop 5).take (data.length * 2)) =
      some data := by
    rw [List.drop_succ_cons, List.drop_left' (by simp [hF3])]
    rw [List.take_of_length_le (by omega)]
    exact parseHexPairs?_flatten hdata
  have hid3 : (('t' :: (fmtHexPad can_id 3 ++ [Char.ofNat (48 + data.length)] ++
      (data.map fmtByte).flatten)).drop 1).take 3 = fmtHexPad can_id 3 := by
    rw [List.drop_one, List.tail_cons, List.append_assoc, List.take_left' hF3]
  simp only [SLCANProtocol.parse_frame, hstrip]
  rw [if_neg (by simp), if_pos hcond]
  simp only [h4, h5, hid3]

theorem slcan_parse_build_ext (now : List Char) {can_id : Nat}
    {data : List Nat} (hid : can_id < 0x20000000) (hlen : data.length ≤ 8)
    (hdata : ∀ b ∈ data, b < 256) :
    SLCANProtocol.parse_frame now (SLCANProtocol.build_frame can_id data true) =
      some { timestamp := now, can_id := fmtHexPad can_id 8, data := data,
             direction := Direction.RX } := by
  have hF8 : (fmtHexPad can_id 8).length = 8 :=
    fmtHexPad_length (by omega) (by norm_num; omega)
  have hHlen : ((data.map fmtByte).flatten).length = 2 * data.length :=
    flatten_fmtByte_length hdata
  have hD : decRepr data.length = [Char.ofNat (48 + data.length)] :=
    decRepr_lt10 data.length (by omega)
  have hbody : noWs ('T' :: (fmtHexPad can_id 8 ++
      [Char.ofNat (48 + data.length)] ++ (data.map fmtByte).flatten)) := by
    intro c hc
    rcases List.mem_cons.mp hc with h | h
    · subst h; decide
    · rcases List.mem_append.mp h with h | h
      · rcases List.mem_append.mp h with h | h
        · exact noWs_fmtHexPad can_id 8 c h
        · rw [List.mem_singleton] at h
          subst h
          exact noWs_digitCh data.length (by omega)
      · exact noWs_flatten_fmtByte data c h
  have hstrip : pyStrip (SLCANProtocol.build_frame can_id data true) =
      'T' :: (fmtHexPad can_id 8 ++ [Char.ofNat (48 + data.length)] ++
        (data.map fmtByte).flatten) := by
    have hb_eq : SLCANProtocol.build_frame can_id data true =
        ('T' :: (fmtHexPad can_id 8 ++ [Char.ofNat (48 + data.length)] ++
          (data.map fmtByte).flatten)) ++ ['\r'] := by
      simp [SLCANProtocol.build_frame, hD, List.append_assoc]
    rw [hb_eq]
    exact pyStrip_noWs_append hbody (by intro c hc; simp at hc; subst hc; decide)
  have hnot_t : ¬ (('T' :: (fmtHexPad can_id 8 ++ [Char.ofNat (48 + data.length)] ++
      (data.map fmtByte).flatten)).headD ' ' = 't' ∧ 5 ≤
      ('T' :: (fmtHexPad can_id 8 ++ [Char.ofNat (48 + data.length)] ++
        (data.map fmtByte).flatten)).length) := by
    intro hcontra
    have := hcontra.1
    simp at this
  have hcond : ('T' :: (fmtHexPad can_id 8 ++ [Char.ofNat (48 + data.length)] ++
      (data.map fmtByte).flatten)).headD ' ' = 'T' ∧ 10 ≤
      ('T' :: (fmtHexPad can_id 8 ++ [Char.ofNat (48 + data.length)] ++
        (data.map fmtByte).flatten)).length := by
    constructor
    · rfl
    · simp only [List.length_cons, List.length_append, hF8, hHlen,
        List.length_singleton]
      omega
  have h9 : hexVal? ((('T' :: (fmtHexPad can_id 8 ++
      [Char.ofNat (48 + data.length)] ++
      (data.map fmtByte).flatten)).drop 9).headD ' ') = some data.length := by
    rw [List.drop_succ_cons, List.append_assoc, List.drop_left' hF8]
    exact hexVal?_digitCh data.length (by omega)
  have h10 : parseHexPairs? ((('T' :: (fmtHexPad can_id 8 ++
      [Char.ofNat (48 + data.length)] ++
      (data.map fmtByte).flatten)).drop 10).take (data.length * 2)) =
      some data := by
    rw [List.drop_succ_cons, List.drop_left' (by simp [hF8])]
    rw [List.take_of_length_le (by omega)]
    exact parseHexPairs?_flatten hdata
  have hid8 : (('T' :: (fmtHexPad can_id 8 ++ [Char.ofNat (48 + data.length)] ++
      (data.map fmtByte).flatten)).drop 1).take 8 = fmtHexPad can_id 8 := by
    rw [List.drop_one, List.tail_cons, List.append_assoc, List.take_left' hF8]
  simp only [SLCANProtocol.parse_frame, hstrip]
  rw [if_neg (by simp), if_neg hnot_t, if_pos hcond]
  simp only [h9, h10, hid8]

/-! ## Helper lemmas: MCP2515 build/parse mismatch -/

theorem noWs_commaJoin :
    ∀ L : List (List Char), (∀ l ∈ L, noWs l) → noWs (commaJoin L)
  | [], _ => by intro c hc; simp [commaJoin] at hc
  | [x], h => by
    intro c hc
    exact h x (List.mem_singleton_self x) c (by simpa [commaJoin] using hc)
  | x :: y :: xs, h => by
    intro c hc
    simp only [commaJoin, List.append_assoc, List.mem_append,
      List.mem_singleton] at hc
    rcases hc with h1 | h1 | h1
    · exact h x (List.mem_cons_self x (y :: xs)) c h1
    · subst h1; decide
    · exact noWs_commaJoin (y :: xs)
        (fun l hl => h l (List.mem_cons_of_mem x hl)) c h1

theorem mcp_build_body (can_id : Nat) (data : List Nat) :
    MCP2515Protocol.build_frame can_id data =
      ('S' :: (['E', 'N', 'D', ':'] ++ fmtHexPad can_id 3 ++ [','] ++
        decRepr data.length ++ [','] ++ commaJoin (data.map fmtByte))) ++
        ['\r', '\n'] := by
  simp [MCP2515Protocol.build_frame, List.append_assoc]

theorem noWs_mcp_body (can_id : Nat) (data : List Nat) :
    noWs ('S' :: (['E', 'N', 'D', ':'] ++ fmtHexPad can_id 3 ++ [','] ++
      decRepr data.length ++ [','] ++ commaJoin (data.map fmtByte))) := by
  have hJ : noWs (commaJoin (data.map fmtByte)) := by
    refine noWs_commaJoin (data.map fmtByte) ?_
    intro l hl
    rw [List.mem_map] at hl
    obtain ⟨b, _, hb⟩ := hl
    exact hb ▸ noWs_fmtByte b
  have hrest : noWs (['E', 'N', 'D', ':'] ++ fmtHexPad can_id 3 ++ [','] ++
      decRepr data.length ++ [','] ++ commaJoin (data.map fmtByte)) :=
    noWs_append
      (noWs_append
        (noWs_append
          (noWs_append
            (noWs_append (by unfold noWs; decide) (noWs_fmtHexPad can_id 3))
            (by unfold noWs; decide))
          (noWs_decRepr data.length))
        (by unfold noWs; decide))
      hJ
  intro c hc
  rcases List.mem_cons.mp hc with h | h
  · subst h; decide
  · exact hrest c h

theorem mcp_parse_build_none (now : List Char) (can_id : Nat)
    (data : List Nat) :
    MCP2515Protocol.parse_frame now (MCP2515Protocol.build_frame can_id data) =
      none := by
  have hstrip : pyStrip (MCP2515Protocol.build_frame can_id data) =
      'S' :: (['E', 'N', 'D', ':'] ++ fmtHexPad can_id 3 ++ [','] ++
        decRepr data.length ++ [','] ++ commaJoin (data.map fmtByte)) := by
    rw [mcp_build_body]
    exact pyStrip_noWs_append (noWs_mcp_body can_id data)
      (by intro c hc; simp at hc; rcases hc with h | h <;> (subst h; decide))
  have hf1 : mcpFormat1 ('S' :: (['E', 'N', 'D', ':'] ++ fmtHexPad can_id 3 ++
      [','] ++ decRepr data.length ++ [','] ++
      commaJoin (data.map fmtByte))) = none := by
    simp [mcpFormat1, matchLiteral]
  have hf2 : mcpFormat2 ('S' :: (['E', 'N', 'D', ':'] ++ fmtHexPad can_id 3 ++
      [','] ++ decRepr data.length ++ [','] ++
      commaJoin (data.map fmtByte))) = none := by
    simp [mcpFormat2, takeClass1, List.takeWhile_cons,
      show isHexCh 'S' = false by decide]
  have hsplit : pySplitWs ('S' :: (['E', 'N', 'D', ':'] ++
      fmtHexPad can_id 3 ++ [','] ++ decRepr data.length ++ [','] ++
      commaJoin (data.map fmtByte))) =
      [('S' :: (['E', 'N', 'D', ':'] ++ fmtHexPad can_id 3 ++ [','] ++
        decRepr data.length ++ [','] ++ commaJoin (data.map fmtByte)))] :=
    pySplitWs_noWs (noWs_mcp_body can_id data) (by simp)
  simp only [MCP2515Protocol.parse_frame, hstrip]
  rw [if_neg (by simp)]
  simp only [hf1, hf2, hsplit]
  simp

end MultiInterface

/-! ## Claim theorems -/

/-- **C2, counterexample.**  The claim asserts
`LINProtocol.calculate_pid(0x01) == 0x41`; the code computes `0xC1`
(for id 1 both parity bits come out 1: `p0 = 1`, `p1 = ~0 & 1 = 1`, so the
result is `0x01 | 0x40 | 0x80`). -/
theorem claim_C2_counterexample :
    MultiInterface.LINProtocol.calculate_pid 0x01 ≠ 0x41 := by
  decide

/-- **C2, amended.**  For every 6-bit frame id `v`, the low 6 bits of
`LINProtocol.calculate_pid v` equal `v` (the id is recoverable from the
protected id), and in particular `calculate_pid 0x01 = 0xC1`
(not `0x41` as the claim stated). -/
theorem claim_C2 :
    (∀ v < 64, MultiInterface.LINProtocol.calculate_pid v % 64 = v) ∧
      MultiInterface.LINProtocol.calculate_pid 0x01 = 0xC1 := by
  constructor
  · decide
  · decide

/-- **C2, witness** for the bounded quantifier, at `v = 0x2A`. -/
theorem claim_C2_witness :
    MultiInterface.LINProtocol.calculate_pid 0x2A % 64 = 0x2A ∧
      MultiInterface.LINProtocol.calculate_pid 0x01 = 0xC1 :=
  ⟨claim_C2.1 0x2A (by decide), claim_C2.2⟩

/-- **C5.**  `LINProtocol.calculate_checksum` starts the accumulator at
`pid` when enhanced (0 when classic), adds each data byte subtracting 255
whenever the running sum exceeds 255 (`lin_accumulate`), and returns the
one's complement `~sum & 0xFF` (`pyNotByte`); and for `pid = 0x01`,
`data = [0x00]`, re-accumulating `[pid] + data + [checksum]` under the
same rule yields `0xFF`. -/
theorem claim_C5 :
    (∀ (pid : Nat) (data : List Nat) (enhanced : Bool),
        MultiInterface.LINProtocol.calculate_checksum pid data enhanced =
          MultiInterface.pyNotByte
            (MultiInterface.lin_accumulate (if enhanced then pid else 0) data)) ∧
      MultiInterface.lin_accumulate 0
        (0x01 :: 0x00 ::
          [MultiInterface.LINProtocol.calculate_checksum 0x01 [0x00] true]) =
        0xFF := by
  constructor
  · intro pid data enhanced
    rfl
  · decide

/-- **C6.**  For every 6-bit frame id `v`, `LINProtocol.calculate_pid v`
equals the spec's parity formula
`v | (p0 << 6) | (p1 << 7)` with
`p0 = (v ^ (v>>1) ^ (v>>2) ^ (v>>4)) & 1` and
`p1 = (~((v>>1) ^ (v>>3) ^ (v>>4) ^ (v>>5))) & 1`
(`spec_protected_id`, transcribed from the spec text). -/
theorem claim_C6 : ∀ v < 64,
    MultiInterface.LINProtocol.calculate_pid v =
      MultiInterface.spec_protected_id v := by
  decide

/-- **C6, witness** at `v = 0x17`. -/
theorem claim_C6_witness :
    MultiInterface.LINProtocol.calculate_pid 0x17 =
      MultiInterface.spec_protected_id 0x17 :=
  claim_C6 0x17 (by decide)

/-- **C7.**  The reconnect backoff delay for attempt `n` is
`min(2^n, 10)` seconds, so the delays for attempts 0–5 are
`1, 2, 4, 8, 10, 10`; and one pass through the serial read loop resets the
attempt counter to 0 whenever the (stripped) line read is non-empty. -/
theorem claim_C7 :
    (∀ attempt, CanInterface.attempt_reconnect_delay attempt =
        min (2 ^ attempt) 10) ∧
      [0, 1, 2, 3, 4, 5].map CanInterface.attempt_reconnect_delay =
        [1, 2, 4, 8, 10, 10] ∧
      ∀ (attempt : Nat) (line : List Char), pyStrip line ≠ [] →
        CanInterface.serial_read_attempt_update attempt line = 0 := by
  refine ⟨fun attempt => rfl, by decide, ?_⟩
  intro attempt line h
  simp [CanInterface.serial_read_attempt_update, h]

/-- **C7, witness**: delay at attempt 3 and counter reset on the
non-empty line `"A"` with a prior attempt count of 7. -/
theorem claim_C7_witness :
    CanInterface.attempt_reconnect_delay 3 = min (2 ^ 3) 10 ∧
      pyStrip ['A'] ≠ [] ∧
      CanInterface.serial_read_attempt_update 7 ['A'] = 0 :=
  ⟨claim_C7.1 3, by decide, claim_C7.2.2 7 ['A'] (by decide)⟩

/-- **C9, counterexample.**  Run of the keep-alive state machine on
session-response, connection-drop, then two timer ticks: both ticks (the
second strictly more than one timer interval after the connection
dropped) still send a tester-present request, because no handler ever
clears `session_active` or stops `tester_present_timer`.  This refutes
"it stops being sent within one interval after ... the connection
drops". -/
theorem claim_C9_counterexample :
    (KeyTools.run KeyTools.initState
      [KeyTools.KeyToolsEvent.sessionResponse,
       KeyTools.KeyToolsEvent.connectionChanged false,
       KeyTools.KeyToolsEvent.timerTick,
       KeyTools.KeyToolsEvent.timerTick]).2 =
      [false, false, true, true] := by
  decide

/-- **C9, amended.**  Once a session-control positive response makes the
session active, a tester-present request is sent on every subsequent
timer tick; the timer never emits a tester-present while no session is
active; a session-control response sets both `session_active` and starts
the timer; but a connection-state change leaves the state untouched (and
no event ends the session or stops the timer), so the tester-present
requests do **not** stop after the session ends or the connection
drops. -/
theorem claim_C9 :
    (∀ s : KeyTools.KeyToolsState,
        (KeyTools.step s KeyTools.KeyToolsEvent.timerTick).2 = true →
          s.session_active = true) ∧
      (∀ s : KeyTools.KeyToolsState, s.session_active = true →
        s.tester_timer_running = true →
        (KeyTools.step s KeyTools.KeyToolsEvent.timerTick).2 = true) ∧
      (∀ s : KeyTools.KeyToolsState,
        KeyTools.step s KeyTools.KeyToolsEvent.sessionResponse =
          ({ session_active := true, tester_timer_running := true }, false)) ∧
      (∀ (s : KeyTools.KeyToolsState) (b : Bool),
        KeyTools.step s (KeyTools.KeyToolsEvent.connectionChanged b) =
          (s, false)) := by
  refine ⟨?_, ?_, fun s => rfl, fun s b => rfl⟩
  · intro s h
    simp only [KeyTools.step, Bool.and_eq_true] at h
    exact h.2
  · intro s h1 h2
    simp [KeyTools.step, h1, h2]

/-- **C9, witness**: with both flags set, a tick sends tester-present,
and a connection drop leaves that state unchanged. -/
theorem claim_C9_witness :
    (KeyTools.step
        { session_active := true, tester_timer_running := true }
        KeyTools.KeyToolsEvent.timerTick).2 = true ∧
      KeyTools.step
        { session_active := true, tester_timer_running := true }
        (KeyTools.KeyToolsEvent.connectionChanged false) =
        ({ session_active := true, tester_timer_running := true }, false) :=
  ⟨claim_C9.2.1 { session_active := true, tester_timer_running := true }
      rfl rfl,
    claim_C9.2.2.2 { session_active := true, tester_timer_running := true }
      false⟩

/-- **C1, counterexample.**  The MCP2515 dialect does not round-trip:
`build_frame` emits the command shape `SEND:{id},{len},{data}` which
matches none of the three input shapes `parse_frame` accepts, so parsing
the built text yields `None` rather than a frame with the same id and
data. -/
theorem claim_C1_counterexample :
    MultiInterface.MCP2515Protocol.parse_frame []
      (MultiInterface.MCP2515Protocol.build_frame 0x123 [0xAB]) = none := by
  decide

/-- **C1, amended.**  The SLCAN dialect round-trips: for every valid
`(id, data)` with `len(data) ≤ 8` and byte-sized data, parsing the built
standard-frame text (`id < 0x800`) or extended-frame text
(`id < 2^29`) yields a frame whose id text re-parses to the same `id` and
whose data equals `data`.  The MCP2515 pair does not round-trip:
`parse_frame` applied to the text of `build_frame` is always `None`. -/
theorem claim_C1 :
    (∀ (now : List Char) (can_id : Nat) (data : List Nat),
        can_id < 0x800 → data.length ≤ 8 → (∀ b ∈ data, b < 256) →
        MultiInterface.SLCANProtocol.parse_frame now
            (MultiInterface.SLCANProtocol.build_frame can_id data false) =
          some { timestamp := now, can_id := fmtHexPad can_id 3,
                 data := data, direction := MultiInterface.Direction.RX } ∧
          parseHexStrict? (fmtHexPad can_id 3) = some can_id) ∧
      (∀ (now : List Char) (can_id : Nat) (data : List Nat),
        can_id < 0x20000000 → data.length ≤ 8 → (∀ b ∈ data, b < 256) →
        MultiInterface.SLCANProtocol.parse_frame now
            (MultiInterface.SLCANProtocol.build_frame can_id data true) =
          some { timestamp := now, can_id := fmtHexPad can_id 8,
                 data := data, direction := MultiInterface.Direction.RX } ∧
          parseHexStrict? (fmtHexPad can_id 8) = some can_id) ∧
      ∀ (now : List Char) (can_id : Nat) (data : List Nat),
        MultiInterface.MCP2515Protocol.parse_frame now
          (MultiInterface.MCP2515Protocol.build_frame can_id data) = none := by
  refine ⟨?_, ?_, MultiInterface.mcp_parse_build_none⟩
  · intro now can_id data h1 h2 h3
    exact ⟨MultiInterface.slcan_parse_build_std now h1 h2 h3,
      parseHexStrict?_fmtHexPad can_id 3⟩
  · intro now can_id data h1 h2 h3
    exact ⟨MultiInterface.slcan_parse_build_ext now h1 h2 h3,
      parseHexStrict?_fmtHexPad can_id 8⟩

/-- **C1, witness**: the standard round-trip at `id = 0x123`,
`data = [0xAB, 0xCD]`. -/
theorem claim_C1_witness :
    (0x123 : Nat) < 0x800 ∧
      ([0xAB, 0xCD] : List Nat).length ≤ 8 ∧
      (∀ b ∈ ([0xAB, 0xCD] : List Nat), b < 256) ∧
      (MultiInterface.SLCANProtocol.parse_frame []
          (MultiInterface.SLCANProtocol.build_frame 0x123 [0xAB, 0xCD] false) =
        some { timestamp := [], can_id := fmtHexPad 0x123 3,
               data := [0xAB, 0xCD],
               direction := MultiInterface.Direction.RX } ∧
        parseHexStrict? (fmtHexPad 0x123 3) = some 0x123) :=
  ⟨by decide, by decide, by decide,
    claim_C1.1 [] 0x123 [0xAB, 0xCD] (by decide) (by decide) (by decide)⟩

/-- **C3, counterexample.**  `SLCANProtocol.parse_frame` accepts a length
digit of `A` (hex 10) and returns a 10-byte frame: the invariant
"frame data length never exceeds 8" fails at the SLCAN decode interface. -/
theorem claim_C3_counterexample :
    (MultiInterface.SLCANProtocol.parse_frame []
      ['t', '1', '2', '3', 'A', '0', '0', '0', '0', '0', '0', '0', '0',
       '0', '0', '0', '0', '0', '0', '0', '0', '0', '0', '0', '0']).map
      (fun f => f.data.length) = some 10 := by
  decide

/-- **C3, amended.**  The CSV parser (at its default
`max_data_bytes = 8`) and `send_frame` (likewise) only produce and accept
frames with at most 8 data bytes, but `SLCANProtocol.parse_frame` checks
its hex length digit against nothing: it guarantees only
`len(data) ≤ 15`. -/
theorem claim_C3 :
    (∀ (now line : List Char) (f : MultiInterface.CANFrame),
        MultiInterface.SLCANProtocol.parse_frame now line = some f →
          f.data.length ≤ 15) ∧
      (∀ (line : List Char) (f : CanInterface.CANFrame),
        CanInterface.default_frame_parse 8 line = some f →
          f.data.length ≤ 8) ∧
      ∀ (running simulate serial_open write_ok : Bool)
        (f : CanInterface.CANFrame),
        CanInterface.send_frame running 8 simulate serial_open write_ok f =
          true → f.data.length ≤ 8 := by
  refine ⟨?_, ?_, ?_⟩
  · intro now line f h
    simp only [MultiInterface.SLCANProtocol.parse_frame] at h
    split at h
    · exact absurd h (by simp)
    · split at h
      · split at h
        · exact absurd h (by simp)
        · rename_i dlc hdlc
          split at h
          · exact absurd h (by simp)
          · rename_i ds hds
            rw [Option.some.injEq] at h
            subst h
            have h16 := hexVal?_lt_16 hdlc
            have hlen := parseHexPairs?_length _ ds hds
            have htake := List.length_take_le (dlc * 2)
              ((pyStrip line).drop 5)
            simp only
            omega
      · split at h
        · split at h
          · exact absurd h (by simp)
          · rename_i dlc hdlc
            split at h
            · exact absurd h (by simp)
            · rename_i ds hds
              rw [Option.some.injEq] at h
              subst h
              have h16 := hexVal?_lt_16 hdlc
              have hlen := parseHexPairs?_length _ ds hds
              have htake := List.length_take_le (dlc * 2)
                ((pyStrip line).drop 10)
              simp only
              omega
        · exact absurd h (by simp)
  · intro line f h
    simp only [CanInterface.default_frame_parse] at h
    split at h
    · split at h
      · exact absurd h (by simp)
      · split at h
        · split at h
          · rename_i heven
            split at h
            · exact absurd h (by simp)
            · rename_i ds hds
              split at h
              · exact absurd h (by simp)
              · rw [Option.some.injEq] at h
                subst h
                have hlen := parseHexPairs?_length _ ds hds
                simp only
                omega
          · exact absurd h (by simp)
        · exact absurd h (by simp)
    · exact absurd h (by simp)
  · intro running simulate serial_open write_ok f h
    simp only [CanInterface.send_frame] at h
    split at h
    · exact absurd h (by simp)
    · split at h
      · exact absurd h (by simp)
      · rename_i hle
        omega

/-- **C3, witness**: an SLCAN frame, a CSV frame and an accepted send,
each within the proved bound. -/
theorem claim_C3_witness :
    MultiInterface.SLCANProtocol.parse_frame []
        ['t', '1', '2', '3', '2', 'A', 'B', 'C', 'D'] =
      some { timestamp := [], can_id := ['1', '2', '3'],
             data := [0xAB, 0xCD],
             direction := MultiInterface.Direction.RX } ∧
      ({ timestamp := [], can_id := ['1', '2', '3'], data := [0xAB, 0xCD],
         direction := MultiInterface.Direction.RX } :
        MultiInterface.CANFrame).data.length ≤ 15 ∧
      CanInterface.default_frame_parse 8
          ['1', ',', '1', 'A', '0', ',', '0', '1', '0', '2', ',', 'R', 'X'] =
        some { timestamp := ['1'], can_id := ['1', 'A', '0'],
               data := [1, 2], direction := CanInterface.Direction.RX } ∧
      ({ timestamp := ['1'], can_id := ['1', 'A', '0'], data := [1, 2],
         direction := CanInterface.Direction.RX } :
        CanInterface.CANFrame).data.length ≤ 8 ∧
      CanInterface.send_frame true 8 true true true
          { timestamp := ['1'], can_id := ['1', 'A', '0'], data := [1, 2],
            direction := CanInterface.Direction.TX } = true ∧
      ({ timestamp := ['1'], can_id := ['1', 'A', '0'], data := [1, 2],
         direction := CanInterface.Direction.TX } :
        CanInterface.CANFrame).data.length ≤ 8 :=
  ⟨by decide,
    claim_C3.1 [] ['t', '1', '2', '3', '2', 'A', 'B', 'C', 'D']
      { timestamp := [], can_id := ['1', '2', '3'], data := [0xAB, 0xCD],
        direction := MultiInterface.Direction.RX } (by decide),
    by decide,
    claim_C3.2.1
      ['1', ',', '1', 'A', '0', ',', '0', '1', '0', '2', ',', 'R', 'X']
      { timestamp := ['1'], can_id := ['1', 'A', '0'], data := [1, 2],
        direction := CanInterface.Direction.RX } (by decide),
    by decide,
    claim_C3.2.2 true true true true
      { timestamp := ['1'], can_id := ['1', 'A', '0'], data := [1, 2],
        direction := CanInterface.Direction.TX } (by decide)⟩

/-- **C4, counterexample.**  A truncated SLCAN line is *not* rejected:
`t1232AB` declares 2 data bytes but carries only one; Python's slice
clamps, so `parse_frame` returns a frame with the single byte `0xAB`
instead of the `None` the claim requires. -/
theorem claim_C4_counterexample :
    MultiInterface.SLCANProtocol.parse_frame []
      ['t', '1', '2', '3', '2', 'A', 'B'] =
      some { timestamp := [], can_id := ['1', '2', '3'], data := [0xAB],
             direction := MultiInterface.Direction.RX } := by
  decide

/-- **C4, amended.**  `SLCANProtocol.parse_frame` never raises (it is
embedded as a total function) and returns `None` when the length digit of
a standard-frame line is not a hex digit; but a line whose data is
truncated short of the declared length — which covers the odd-digit-count
case — is *not* rejected: the parser returns a frame holding whatever
data bytes are present. -/
theorem claim_C4 :
    (∀ (now l : List Char), noWs l → 5 ≤ l.length → l.headD ' ' = 't' →
        hexVal? ((l.drop 4).headD ' ') = none →
        MultiInterface.SLCANProtocol.parse_frame now l = none) ∧
      ∀ (now id3 H : List Char) (dchar : Char) (dlc : Nat) (ds : List Nat),
        id3.length = 3 → noWs ('t' :: (id3 ++ [dchar] ++ H)) →
        hexVal? dchar = some dlc → H.length < dlc * 2 →
        parseHexPairs? H = some ds →
        MultiInterface.SLCANProtocol.parse_frame now
            ('t' :: (id3 ++ [dchar] ++ H)) =
          some { timestamp := now, can_id := id3, data := ds,
                 direction := MultiInterface.Direction.RX } := by
  constructor
  · intro now l hno h5 hhead hbad
    simp only [MultiInterface.SLCANProtocol.parse_frame, pyStrip_noWs hno]
    rw [if_neg (by intro hc; subst hc; simp at h5)]
    rw [if_pos ⟨hhead, h5⟩]
    rw [hbad]
  · intro now id3 H dchar dlc ds h3 hno hd hH hp
    simp only [MultiInterface.SLCANProtocol.parse_frame, pyStrip_noWs hno]
    rw [if_neg (by simp)]
    rw [if_pos ⟨rfl, by simp; omega⟩]
    have h4 : hexVal? ((('t' :: (id3 ++ [dchar] ++ H)).drop 4).headD ' ') =
        some dlc := by
      rw [show ('t' :: (id3 ++ [dchar] ++ H)).drop 4 =
          ((id3 ++ [dchar]) ++ H).drop 3 from rfl]
      rw [List.append_assoc, List.drop_left' h3]
      exact hd
    have h5 : parseHexPairs?
        ((('t' :: (id3 ++ [dchar] ++ H)).drop 5).take (dlc * 2)) =
        some ds := by
      rw [show ('t' :: (id3 ++ [dchar] ++ H)).drop 5 =
          ((id3 ++ [dchar]) ++ H).drop 4 from rfl]
      rw [List.drop_left' (by simp [h3])]
      rw [List.take_of_length_le (by omega)]
      exact hp
    have hid : (('t' :: (id3 ++ [dchar] ++ H)).drop 1).take 3 = id3 := by
      rw [List.drop_one, List.tail_cons, List.append_assoc,
        List.take_left' h3]
    simp only [h4, h5, hid]

/-- **C4, witness**: rejection of the non-hex length digit in `t123X`,
and the truncated line `t1232A` (2 bytes declared, one odd digit
present) parsing to the one-byte frame `[0x0A]`. -/
theorem claim_C4_witness :
    MultiInterface.SLCANProtocol.parse_frame []
        ['t', '1', '2', '3', 'X'] = none ∧
      MultiInterface.SLCANProtocol.parse_frame []
          ['t', '1', '2', '3', '2', 'A'] =
        some { timestamp := [], can_id := ['1', '2', '3'], data := [0x0A],
               direction := MultiInterface.Direction.RX } :=
  ⟨claim_C4.1 [] ['t', '1', '2', '3', 'X'] (by unfold noWs; decide)
      (by decide) (by decide) (by decide),
    by
      have h := claim_C4.2 [] ['1', '2', '3'] ['A'] '2' 2 [0x0A]
        (by decide) (by unfold noWs; decide) (by decide) (by decide)
        (by decide)
      simpa using h⟩

/-- **C8.**  For all DTC bytes `(hi, lo)` with `lo < 256`, the decoded
string is the type letter selected from `{P, C, B, U}` by
`(hi >> 6) & 0x03`, followed by the four upper-case hex digits of
`((hi & 0x3F) << 8) | lo`; in particular `decode_dtc 0x01 0x00 =
"P0100"`. -/
theorem claim_C8 : ∀ hi lo : Nat, lo < 256 →
    Diagnostics.decode_dtc hi lo =
      Diagnostics.dtc_type_char ((hi >>> 6) &&& 0x03) ::
        fmtHexPad (((hi &&& 0x3F) <<< 8) ||| lo) 4 ∧
      (fmtHexPad (((hi &&& 0x3F) <<< 8) ||| lo) 4).length = 4 ∧
      (∀ c ∈ fmtHexPad (((hi &&& 0x3F) <<< 8) ||| lo) 4,
        Diagnostics.isUpperHexDigit c = true) ∧
      Diagnostics.decode_dtc 0x01 0x00 = ['P', '0', '1', '0', '0'] := by
  intro hi lo hlo
  have hnum : ((hi &&& 0x3F) <<< 8) ||| lo < 16 ^ 4 := by
    have h6 : hi &&& 0x3F < 2 ^ 6 := by
      have := Nat.and_le_right (n := hi) (m := 0x3F)
      omega
    have := Nat.append_lt (show lo < 2 ^ 8 by omega) h6
    omega
  refine ⟨?_, fmtHexPad_length (by omega) hnum, ?_, by decide⟩
  · have ht : (hi >>> 6) &&& 0x03 < 4 := by
      have := Nat.and_le_right (n := hi >>> 6) (m := 0x03)
      omega
    simp only [Diagnostics.decode_dtc, Diagnostics.dtc_type_char]
    have hcase : (hi >>> 6) &&& 0x03 = 0 ∨ (hi >>> 6) &&& 0x03 = 1 ∨
        (hi >>> 6) &&& 0x03 = 2 ∨ (hi >>> 6) &&& 0x03 = 3 := by omega
    rcases hcase with h | h | h | h <;> simp [h]
  · intro c hc
    rcases mem_fmtHexPad hc with h | ⟨k, hk, h⟩
    · subst h; decide
    · subst h
      exact (show ∀ k < 16, Diagnostics.isUpperHexDigit (natToHexCh k) = true
        by decide) k hk

/-- **C8, witness** at `hi = 0xC1`, `lo = 0x23` (a `U`-type code). -/
theorem claim_C8_witness :
    (0x23 : Nat) < 256 ∧
      (Diagnostics.decode_dtc 0xC1 0x23 =
        Diagnostics.dtc_type_char ((0xC1 >>> 6) &&& 0x03) ::
          fmtHexPad (((0xC1 &&& 0x3F) <<< 8) ||| 0x23) 4 ∧
        (fmtHexPad (((0xC1 &&& 0x3F) <<< 8) ||| 0x23) 4).length = 4 ∧
        (∀ c ∈ fmtHexPad (((0xC1 &&& 0x3F) <<< 8) ||| 0x23) 4,
          Diagnostics.isUpperHexDigit c = true) ∧
        Diagnostics.decode_dtc 0x01 0x00 = ['P', '0', '1', '0', '0']) :=
  ⟨by decide, claim_C8 0xC1 0x23 (by decide)⟩

/-- Rewriting the `(value << 8) | b` accumulation of `decode_uint` into
plain big-endian arithmetic, for byte-sized inputs. -/
theorem foldl_shiftLeft_or {l : List Nat} (h : ∀ b ∈ l, b < 256) :
    ∀ a, l.foldl (fun v b => (v <<< 8) ||| b) a =
      l.foldl (fun v b => v * 256 + b) a := by
  induction l with
  | nil => intro a; rfl
  | cons b bs ih =>
    intro a
    simp only [List.foldl_cons]
    rw [shiftLeft_lor_eq_add a
      (show b < 2 ^ 8 from h b (List.mem_cons_self b bs))]
    rw [show (2 : Nat) ^ 8 = 256 by norm_num]
    exact ih (fun x hx => h x (List.mem_cons_of_mem b hx)) _

/-- **C10.**  `decode_uint` is total (embedded as a total function): for
every data list shorter than `byte_count` it returns the string
`"Invalid (<n> bytes)"` where `<n>` is the list's length in decimal, and
for every byte list of length at least `byte_count` it returns the
decimal string of the big-endian unsigned integer formed from exactly the
first `byte_count` bytes, ignoring any bytes beyond them. -/
theorem claim_C10 :
    (∀ (data : List Nat) (byte_count : Nat), data.length < byte_count →
        UdsDecoder.decode_uint data byte_count =
          ['I', 'n', 'v', 'a', 'l', 'i', 'd', ' ', '('] ++
            decRepr data.length ++ [' ', 'b', 'y', 't', 'e', 's', ')']) ∧
      ∀ (data : List Nat) (byte_count : Nat), byte_count ≤ data.length →
        (∀ b ∈ data, b < 256) →
        UdsDecoder.decode_uint data byte_count =
          decRepr (UdsDecoder.beValue (data.take byte_count)) := by
  constructor
  · intro data byte_count h
    simp [UdsDecoder.decode_uint, h]
  · intro data byte_count h hb
    unfold UdsDecoder.decode_uint
    rw [if_neg (Nat.not_lt.mpr h)]
    unfold UdsDecoder.beValue
    rw [foldl_shiftLeft_or (fun b hmem => hb b (List.mem_of_mem_take hmem)) 0]

/-- **C10, witness**: the short-input branch at `[1, 2]` with
`byte_count = 4`, and the value branch at `[1, 2, 3, 4, 5]` (the fifth
byte is ignored). -/
theorem claim_C10_witness :
    ([1, 2] : List Nat).length < 4 ∧
      UdsDecoder.decode_uint [1, 2] 4 =
        ['I', 'n', 'v', 'a', 'l', 'i', 'd', ' ', '('] ++ decRepr 2 ++
          [' ', 'b', 'y', 't', 'e', 's', ')'] ∧
      UdsDecoder.decode_uint [1, 2, 3, 4, 5] 4 =
        decRepr (UdsDecoder.beValue ([1, 2, 3, 4, 5].take 4)) :=
  ⟨by decide,
    by
      have h := claim_C10.1 [1, 2] 4 (by decide)
      simpa using h,
    claim_C10.2 [1, 2, 3, 4, 5] 4 (by decide) (by decide)⟩

end CyberNinja
